import Mathlib

/-!
Verification development for the instruction-level abstract interpreter of
hphp/hhbbc/interp.cpp.  The data model (abstract states, effect flags) and the
opcode handlers relevant to the claims are embedded shallowly; the external
type lattice and the small helper layer (interp-internal.h, type-ops.cpp),
which are not part of the provided source, are modelled from the spec where
noted.  The embedded instruction subset covers the opcodes the claims are
about; replacement sequences produced by strength reduction only ever contain
Nop and PopC, exactly as in the embedded handlers.
-/

namespace HHBBC

/-- Local variable identifiers, with the sentinel values used by the source:
real locals are at most MaxLocalId, StackDupId marks a stack duplicate, and
NoLocalId means no known equivalence. -/
abbrev LocalId := Nat

def NoLocalId : LocalId := 4294967295

def StackDupId : LocalId := 4294967294

def MaxLocalId : LocalId := 4294967293

abbrev BlockId := Nat

/-- Modelled from the spec: floating values matter to the claims only through
IEEE NaN behaviour, so a double is either an ordinary number, identified by an
integer, or the NaN payload. -/
inductive Dbl where
  | num (n : Int)
  | nan
deriving DecidableEq

/-- Concrete runtime cells (TypedValue), as far as the claims need them. -/
inductive Cell where
  | nullv
  | boolv (b : Bool)
  | intv (n : Int)
  | dblv (d : Dbl)
  | strv (s : String)
deriving DecidableEq

/-- Modelled from the spec: the type lattice is consumed as an external
algebra offering subtype, could-be, emptiness and literal extraction.  The
embedding instantiates it with the lattice points the handlers under study
mention; the hierarchy forms a tree, so subtyping is ancestry. -/
inductive Ty where
  | TBottom
  | TUninit
  | TInitNull
  | TTrue
  | TFalse
  | TBool
  | TIVal (n : Int)
  | TInt
  | TDVal (d : Dbl)
  | TDbl
  | TSVal (s : String)
  | TStr
  | TPArr
  | TVArr
  | TDArr
  | TArr
  | TVec
  | TDict
  | TKeyset
  | TObj
  | TRes
  | TRef
  | TInitCell
  | TCell
  | TGen
deriving DecidableEq

/-- Chain of ancestors of a lattice point, itself included, towards TGen. -/
def ancestorsOf : Ty → List Ty
  | .TBottom => [.TBottom]
  | .TUninit => [.TUninit, .TCell, .TGen]
  | .TInitNull => [.TInitNull, .TInitCell, .TCell, .TGen]
  | .TTrue => [.TTrue, .TBool, .TInitCell, .TCell, .TGen]
  | .TFalse => [.TFalse, .TBool, .TInitCell, .TCell, .TGen]
  | .TBool => [.TBool, .TInitCell, .TCell, .TGen]
  | .TIVal n => [.TIVal n, .TInt, .TInitCell, .TCell, .TGen]
  | .TInt => [.TInt, .TInitCell, .TCell, .TGen]
  | .TDVal d => [.TDVal d, .TDbl, .TInitCell, .TCell, .TGen]
  | .TDbl => [.TDbl, .TInitCell, .TCell, .TGen]
  | .TSVal s => [.TSVal s, .TStr, .TInitCell, .TCell, .TGen]
  | .TStr => [.TStr, .TInitCell, .TCell, .TGen]
  | .TPArr => [.TPArr, .TArr, .TInitCell, .TCell, .TGen]
  | .TVArr => [.TVArr, .TArr, .TInitCell, .TCell, .TGen]
  | .TDArr => [.TDArr, .TArr, .TInitCell, .TCell, .TGen]
  | .TArr => [.TArr, .TInitCell, .TCell, .TGen]
  | .TVec => [.TVec, .TInitCell, .TCell, .TGen]
  | .TDict => [.TDict, .TInitCell, .TCell, .TGen]
  | .TKeyset => [.TKeyset, .TInitCell, .TCell, .TGen]
  | .TObj => [.TObj, .TInitCell, .TCell, .TGen]
  | .TRes => [.TRes, .TInitCell, .TCell, .TGen]
  | .TRef => [.TRef, .TGen]
  | .TInitCell => [.TInitCell, .TCell, .TGen]
  | .TCell => [.TCell, .TGen]
  | .TGen => [.TGen]

/-- Subtype test: TBottom is below everything, otherwise ancestry. -/
def Ty.subtypeOf (a b : Ty) : Bool :=
  a == .TBottom || (ancestorsOf a).contains b

/-- Could-be test: the meet is nonempty, which on a tree lattice means one
side is an ancestor of the other (and neither is empty). -/
def Ty.couldBe (a b : Ty) : Bool :=
  !(a == .TBottom) && !(b == .TBottom) && (a.subtypeOf b || b.subtypeOf a)

/-- Literal extraction: the concrete cell of a singleton lattice point. -/
def tv : Ty → Option Cell
  | .TInitNull => some .nullv
  | .TTrue => some (.boolv true)
  | .TFalse => some (.boolv false)
  | .TIVal n => some (.intv n)
  | .TDVal d => some (.dblv d)
  | .TSVal s => some (.strv s)
  | _ => none

/-- Singleton lattice point of a concrete cell. -/
def from_cell : Cell → Ty
  | .nullv => .TInitNull
  | .boolv true => .TTrue
  | .boolv false => .TFalse
  | .intv n => .TIVal n
  | .dblv d => .TDVal d
  | .strv s => .TSVal s

/-- Modelled from the spec: a type is scalar when its value is statically
known, which for the embedded lattice coincides with literal extraction. -/
def is_scalar (t : Ty) : Bool :=
  (tv t).isSome

/-- Modelled from the spec: identity comparison of concrete cells, honoring
IEEE-754 NaN inequality for floating values; distinct kinds are never
identical. -/
def cellSame : Cell → Cell → Bool
  | .nullv, .nullv => true
  | .boolv a, .boolv b => a == b
  | .intv a, .intv b => a == b
  | .dblv (.num a), .dblv (.num b) => a == b
  | .dblv _, .dblv _ => false
  | .strv a, .strv b => a == b
  | _, _ => false

/-- Modelled from the spec: truthiness of a concrete cell (NaN is truthy). -/
def cellToBool : Cell → Bool
  | .nullv => false
  | .boolv b => b
  | .intv n => !(n == 0)
  | .dblv (.num n) => !(n == 0)
  | .dblv .nan => true
  | .strv s => !(s == "" || s == "0")

/-- Modelled from the spec: concrete cast of a cell to an integer cell. -/
def cellToInt : Cell → Cell
  | .nullv => .intv 0
  | .boolv b => .intv (if b then 1 else 0)
  | .intv n => .intv n
  | .dblv (.num n) => .intv n
  | .dblv .nan => .intv 0
  | .strv _ => .intv 0

/-- Modelled from the spec: concrete arithmetic addition on numeric literal
cells; other additions fail evaluation and fall back to the abstract
operator, which is sound. -/
def cellAdd : Cell → Cell → Option Cell
  | .intv a, .intv b => some (.intv (a + b))
  | .intv a, .dblv (.num b) => some (.dblv (.num (a + b)))
  | .dblv (.num a), .intv b => some (.dblv (.num (a + b)))
  | .dblv (.num a), .dblv (.num b) => some (.dblv (.num (a + b)))
  | .dblv .nan, .intv _ => some (.dblv .nan)
  | .dblv .nan, .dblv _ => some (.dblv .nan)
  | .intv _, .dblv .nan => some (.dblv .nan)
  | .dblv (.num _), .dblv .nan => some (.dblv .nan)
  | _, _ => none

inductive Emptiness where
  | Empty
  | NonEmpty
  | Maybe
deriving DecidableEq

/-- Modelled from the spec: three-way truthiness of a lattice point. -/
def emptiness (t : Ty) : Emptiness :=
  match tv t with
  | some c => if cellToBool c then .NonEmpty else .Empty
  | none =>
    match t with
    | .TBottom => .Empty
    | .TUninit => .Empty
    | .TObj => .NonEmpty
    | .TRes => .NonEmpty
    | _ => .Maybe

/-- Modelled from the spec: the lattice-level may-be-identical comparator,
a sound over-approximation used when no static decision applies. -/
def typeSame (t1 t2 : Ty) : Ty :=
  if t1.couldBe t2 then .TBool else .TFalse

/-- Modelled from the spec: negated lattice-level identity comparator. -/
def typeNSame (t1 t2 : Ty) : Ty :=
  if t1.couldBe t2 then .TBool else .TTrue

/-- Modelled from the spec: abstract result of an arithmetic add when no
concrete evaluation applies (sound over-approximation). -/
def typeAddAbstract (t1 t2 : Ty) : Ty :=
  if t1.subtypeOf .TInt && t2.subtypeOf .TInt then .TInt
  else if t1.subtypeOf .TDbl && t2.subtypeOf .TDbl then .TDbl
  else .TInitCell

/-- Modelled from the spec: the abstract add operator evaluates concretely
when both operands are literals and the concrete sum exists, and returns the
lattice-level result otherwise. -/
def typeAdd (t1 t2 : Ty) : Ty :=
  match tv t1, tv t2 with
  | some v1, some v2 =>
    match cellAdd v1 v2 with
    | some c => from_cell c
    | none => typeAddAbstract t1 t2
  | _, _ => typeAddAbstract t1 t2

/-- One operand-stack slot: a lattice point tagged with the equivalence id
linking it to a local it is known to alias (or a sentinel). -/
structure StkElem where
  type : Ty
  equivLoc : LocalId
deriving DecidableEq

/-- Abstract per-block state.  The source keeps the top of the stack at the
back of a vector; the model keeps it at the head of the list, a pure
orientation change.  The local equivalence relation is modelled from the
spec as an explicit partition (list of equivalence classes), matching the
symmetric transitively closed relation the source maintains by linked
traversal. -/
structure State where
  stack : List StkElem
  locals : List Ty
  equivClasses : List (List LocalId)
  unreachable : Bool
deriving DecidableEq

/-- Embedded instruction forms (the opcodes the claims are about). -/
inductive Bytecode where
  | Nop
  | PopC
  | Int (n : Int)
  | Double (d : Dbl)
  | String (s : String)
  | Print
  | Add
  | CastInt
  | Same
  | NSame
  | Not
  | RetC
  | SetL (loc : LocalId)
  | PopL (loc : LocalId)
deriving DecidableEq

/-- Per-instruction effect flags.  Field meanings as in the source StepFlags;
NoBlockId and folly none sentinels become Option. -/
structure StepFlags where
  wasPEI : Bool
  canConstProp : Bool
  effectFree : Bool
  strengthReduced : Option (List Bytecode)
  jmpDest : Option BlockId
  returned : Option Ty
deriving DecidableEq

/-- Modelled from the spec: the conservative defaults a fresh StepFlags
carries before a handler runs, mirroring the per-instruction reset that
impl_vec performs (may throw, no const-prop, not effect-free). -/
def StepFlags.initial : StepFlags :=
  ⟨true, false, false, none, none, none⟩

/-- Interpreter environment threaded through the handlers: the abstract
state, the flags being computed, and the log of propagate calls made so far
(block id paired with the state sent to it). -/
structure ISS where
  state : State
  flags : StepFlags
  props : List (BlockId × State)
deriving DecidableEq

/-- Global interpreter options consulted by the embedded code paths. -/
structure Opts where
  StrengthReduce : Bool
  ConstantProp : Bool
  EvalHackArrCompatNotices : Bool
  EvalHackArrCompatDVCmpNotices : Bool

/-- Collected analysis context: the optional constant-propagation hook that
impl_vec may consult, and the effect-free bookkeeping run maintains. -/
structure CollectInfo where
  propagate_constants : Option (Bytecode → State → Option (List Bytecode))
  effectFree : Bool
  effectFreeOnly : Bool

def nothrow (e : ISS) : ISS :=
  { e with flags := { e.flags with wasPEI := false } }

def effect_free (e : ISS) : ISS :=
  { e with flags := { e.flags with wasPEI := false, effectFree := true } }

def constprop (e : ISS) : ISS :=
  { e with flags := { e.flags with canConstProp := true } }

def unreachable (e : ISS) : ISS :=
  { e with state := { e.state with unreachable := true } }

def defaultStkElem : StkElem :=
  ⟨.TBottom, NoLocalId⟩

def topStkElem (st : State) (i : Nat) : StkElem :=
  st.stack.getD i defaultStkElem

def topC (st : State) (i : Nat) : Ty :=
  (topStkElem st i).type

def topStkEquiv (st : State) (i : Nat) : LocalId :=
  (topStkElem st i).equivLoc

def topStkLocal (st : State) (i : Nat) : LocalId :=
  if topStkEquiv st i > MaxLocalId then NoLocalId else topStkEquiv st i

def pushEquiv (e : ISS) (t : Ty) (l : LocalId) : ISS :=
  { e with state := { e.state with stack := ⟨t, l⟩ :: e.state.stack } }

def push (e : ISS) (t : Ty) : ISS :=
  pushEquiv e t NoLocalId

def popC (e : ISS) : Ty × ISS :=
  match e.state.stack with
  | [] => (.TBottom, e)
  | x :: rest => (x.type, { e with state := { e.state with stack := rest } })

def discard (e : ISS) (n : Nat) : ISS :=
  { e with state := { e.state with stack := e.state.stack.drop n } }

def peekLocRaw (st : State) (l : LocalId) : Ty :=
  st.locals.getD l .TGen

def locCouldBeRef (st : State) (l : LocalId) : Bool :=
  (peekLocRaw st l).couldBe .TRef

/-- Modelled from the spec: membership-based query on the equivalence
partition. -/
def locsAreEquiv (st : State) (l1 l2 : LocalId) : Bool :=
  st.equivClasses.any (fun c => c.contains l1 && c.contains l2)

/-- Modelled from the spec: a local whose value changes leaves its
equivalence class; classes that shrink below two members disappear. -/
def killLocEquiv (st : State) (l : LocalId) : State :=
  let pruned := st.equivClasses.map (fun c => c.filter (fun x => !(x == l)))
  { st with equivClasses := pruned.filter (fun c => 2 ≤ c.length) }

/-- Modelled from the spec: stack slots aliasing a mutated local lose their
equivalence tag. -/
def killStkEquiv (st : State) (l : LocalId) : State :=
  { st with stack :=
      st.stack.map (fun el => if el.equivLoc == l then ⟨el.type, NoLocalId⟩ else el) }

/-- Modelled from the spec: record that two locals are provably equal, by
joining the first into the class of the second (union-find style merge). -/
def addLocEquiv (st : State) (l1 l2 : LocalId) : State :=
  match st.equivClasses.findIdx? (fun c => c.contains l2) with
  | some i => { st with equivClasses := st.equivClasses.set i (l1 :: st.equivClasses.getD i []) }
  | none => { st with equivClasses := st.equivClasses ++ [[l1, l2]] }

/-- Modelled from the spec: a local write refines the tracked type only when
the slot currently holds an unboxed cell (boxed or generic slots keep their
type), after invalidating the equivalences of the written local. -/
def setLoc (st : State) (l : LocalId) (t : Ty) : State :=
  let st1 := killStkEquiv (killLocEquiv st l) l
  if (peekLocRaw st1 l).subtypeOf .TCell then
    { st1 with locals := st1.locals.set l t }
  else st1

/-- Modelled from the spec: types whose destruction can run user code. -/
def could_run_destructor (t : Ty) : Bool :=
  t.couldBe .TObj

/-- Declared push arity of each embedded instruction form. -/
def numPush : Bytecode → Nat
  | .Nop => 0
  | .PopC => 0
  | .Int _ => 1
  | .Double _ => 1
  | .String _ => 1
  | .Print => 1
  | .Add => 1
  | .CastInt => 1
  | .Same => 1
  | .NSame => 1
  | .Not => 1
  | .RetC => 0
  | .SetL _ => 1
  | .PopL _ => 0

/-- Control-flow-terminal instruction forms (instrFlags TF bit). -/
def instrIsTF : Bytecode → Bool
  | .RetC => true
  | _ => false

def in_Nop (e : ISS) : ISS :=
  effect_free e

def in_PopC (e : ISS) : ISS :=
  let e1 := nothrow e
  let p := popC e1
  if could_run_destructor p.1 then p.2 else effect_free p.2

def in_Int (e : ISS) (n : Int) : ISS :=
  push (effect_free e) (.TIVal n)

def in_Double (e : ISS) (d : Dbl) : ISS :=
  push (effect_free e) (.TDVal d)

def in_String (e : ISS) (s : String) : ISS :=
  push (effect_free e) (.TSVal s)

def in_Print (e : ISS) : ISS :=
  push (popC e).2 (.TIVal 1)

/-- Handler shape shared by the arithmetic opcodes: mark const-prop, pop the
two operands and push the abstract operator applied to them. -/
def arithImpl (e : ISS) (fn : Ty → Ty → Ty) : ISS :=
  let e1 := constprop e
  let p1 := popC e1
  let p2 := popC p1.2
  push p2.2 (fn p2.1 p1.1)

def in_Add (e : ISS) : ISS :=
  arithImpl e typeAdd

def couldBeHackArr (t : Ty) : Bool :=
  t.couldBe .TVec || t.couldBe .TDict || t.couldBe .TKeyset

/-- The compatibility-warning predicate of resolveSame: identity comparisons
across PHP-array and Hack-array kinds may emit notices under the
corresponding runtime options. -/
def mightWarnSame (O : Opts) (t1 t2 : Ty) : Bool :=
  if O.EvalHackArrCompatNotices &&
      ((t1.couldBe .TArr && couldBeHackArr t2) ||
       (couldBeHackArr t1 && t2.couldBe .TArr)) then true
  else if O.EvalHackArrCompatDVCmpNotices then
    if !(t1.couldBe .TArr) || !(t2.couldBe .TArr) then false
    else if t1.subtypeOf .TPArr && t2.subtypeOf .TPArr then false
    else if t1.subtypeOf .TVArr && t2.subtypeOf .TVArr then false
    else if t1.subtypeOf .TDArr && t2.subtypeOf .TDArr then false
    else true
  else false

/-- Known value that rules the NaN case out: a cell that is not a double, or
a non-NaN double (the third and fourth disjuncts of the resolveSame guard). -/
def notNanCell : Cell → Bool
  | .dblv d => !(d == .nan)
  | _ => true

/-- The local-equivalence condition of resolveSame: the top slot is a stack
duplicate, or both top slots carry real locals that are the same local or
provably equivalent locals. -/
def linkedOperands (st : State) : Bool :=
  let l1 := topStkEquiv st 0
  let l2 := topStkEquiv st 1
  l1 == StackDupId ||
    (l1 ≤ MaxLocalId && l2 ≤ MaxLocalId && (l1 == l2 || locsAreEquiv st l1 l2))

/-- Identity-comparison resolution: decide statically from local equivalence
when the NaN guard permits, else compare literals, else fall back to the
lattice comparator; paired with the might-warn bit. -/
def resolveSame (nsame : Bool) (O : Opts) (st : State) : Ty × Bool :=
  let t1 := topC st 0
  let t2 := topC st 1
  let v1 := tv t1
  let v2 := tv t2
  let result :=
    if linkedOperands st &&
       (!(t1.couldBe .TDbl) || !(t2.couldBe .TDbl) ||
        (match v1 with | some c => notNanCell c | none => false) ||
        (match v2 with | some c => notNanCell c | none => false)) then
      if nsame then Ty.TFalse else Ty.TTrue
    else
      match v1, v2 with
      | some c1, some c2 =>
        if (cellSame c2 c1) != nsame then Ty.TTrue else Ty.TFalse
      | _, _ => if nsame then typeNSame t1 t2 else typeSame t1 t2
  (result, mightWarnSame O t1 t2)

def sameImpl (nsame : Bool) (O : Opts) (e : ISS) : ISS :=
  let p := resolveSame nsame O e.state
  let e1 := discard e 2
  let e2 := if p.2 then e1 else constprop (nothrow e1)
  push e2 p.1

def castBoolImpl (e : ISS) (t : Ty) (negate : Bool) : ISS :=
  let e1 := constprop (nothrow e)
  match emptiness t with
  | .Empty => push e1 (if negate then .TTrue else .TFalse)
  | .NonEmpty => push e1 (if negate then .TFalse else .TTrue)
  | .Maybe => push e1 .TBool

def in_Not (e : ISS) : ISS :=
  let p := popC e
  castBoolImpl p.2 p.1 true

/-- Modelled from the spec: a return-class handler reports the returned type
in the flags; the plain return form is effect-free. -/
def doRet (e : ISS) (t : Ty) (hasEffects : Bool) : ISS :=
  let e1 := if hasEffects then e else effect_free e
  { e1 with flags := { e1.flags with returned := some t } }

def in_RetC (e : ISS) : ISS :=
  let p := popC e
  doRet p.2 p.1 false

/-- Dispatch over the instruction forms whose handlers never request a
strength reduction.  This is the dispatch that the replacement sequences of
this development re-enter (they only ever contain Nop and PopC); it agrees
with the full dispatch on every non-reducing opcode, and gives the three
reducing opcodes, which never occur inside replacement sequences here,
identity behaviour. -/
def dispatchSimple (O : Opts) (e : ISS) (bc : Bytecode) : ISS :=
  match bc with
  | .Nop => in_Nop e
  | .PopC => in_PopC e
  | .Int n => in_Int e n
  | .Double d => in_Double e d
  | .String s => in_String e s
  | .Print => in_Print e
  | .Add => in_Add e
  | .Same => sameImpl false O e
  | .NSame => sameImpl true O e
  | .Not => in_Not e
  | .RetC => in_RetC e
  | .CastInt => e
  | .SetL _ => e
  | .PopL _ => e

/-- The post-hoc scalar-output upgrade a handler may receive inside
impl_vec: when the flags are not already effect-free and no-throw, and every
value the instruction pushed is scalar, force-upgrade to effect-free and
no-throw. -/
def applyConstProp (e : ISS) (n : Nat) : ISS :=
  if e.flags.effectFree && !e.flags.wasPEI then e
  else if (e.state.stack.take n).all (fun el => is_scalar el.type) then
    { e with flags := { e.flags with wasPEI := false, effectFree := true } }
  else e

/-- One iteration of the impl_vec loop: run the sub-instruction through the
given dispatch with freshly reset flags, fold its requested reduction or the
instruction itself into the accumulated replacement, apply the
constant-propagation hook or the scalar upgrade, and combine flags with the
saved ones (wasPEI by or, canConstProp and effectFree by and). -/
def implVecStep (C : CollectInfo) (dd : ISS → Bytecode → ISS) (reduce : Bool)
    (b : Bytecode) (e : ISS) (cur : List Bytecode) : ISS × List Bytecode :=
  let saved := e.flags
  let e1 := { e with flags := { e.flags with
                                  wasPEI := true, canConstProp := false,
                                  effectFree := false, strengthReduced := none } }
  let e2 := dd e1 b
  let stepRes : ISS × List Bytecode :=
    match e2.flags.strengthReduced with
    | some red =>
      let e3 := if instrIsTF (red.getLastD .Nop) then unreachable e2 else e2
      (e3, if reduce then cur ++ red else cur)
    | none =>
      let e3 := if instrIsTF b then unreachable e2 else e2
      if reduce then
        match (if e3.flags.canConstProp then C.propagate_constants else none) with
        | some f =>
          match f b e3.state with
          | some out =>
            ({ e3 with flags := { e3.flags with
                                    canConstProp := false,
                                    wasPEI := false, effectFree := true } },
             cur ++ out)
          | none => (e3, cur ++ [b])
        | none =>
          if e3.flags.canConstProp then (applyConstProp e3 (numPush b), cur ++ [b])
          else (e3, cur ++ [b])
      else
        if e3.flags.canConstProp then (applyConstProp e3 (numPush b), cur)
        else (e3, cur)
  let e4 := stepRes.1
  ({ e4 with flags := { e4.flags with
      wasPEI := e4.flags.wasPEI || saved.wasPEI,
      canConstProp := e4.flags.canConstProp && saved.canConstProp,
      effectFree := e4.flags.effectFree && saved.effectFree } },
   stepRes.2)

/-- Loop of impl_vec over the sub-instruction list, stopping early once the
running state is unreachable. -/
def implVecLoop (C : CollectInfo) (dd : ISS → Bytecode → ISS) (reduce : Bool) :
    List Bytecode → ISS → List Bytecode → ISS × List Bytecode
  | [], e, cur => (e, cur)
  | b :: rest, e, cur =>
    let s := implVecStep C dd reduce b e cur
    if s.1.state.unreachable then s
    else implVecLoop C dd reduce rest s.1 s.2

/-- Sub-evaluation of an explicit instruction sequence, mirroring impl_vec of
the source: reduction collection is disabled when strength reduction is
globally off, flags start optimistic and are combined per sub-instruction,
and the accumulated replacement becomes the strengthReduced answer when
reducing. -/
def impl_vec (O : Opts) (C : CollectInfo) (dd : ISS → Bytecode → ISS)
    (reduce0 : Bool) (bcs : List Bytecode) (e0 : ISS) : ISS :=
  let reduce := reduce0 && O.StrengthReduce
  let e := { e0 with flags := { e0.flags with
                                  wasPEI := false, canConstProp := true,
                                  effectFree := true } }
  let r := implVecLoop C dd reduce bcs e []
  { r.1 with flags := { r.1.flags with strengthReduced := if reduce then some r.2 else none } }

def in_CastInt (O : Opts) (C : CollectInfo) (e0 : ISS) : ISS :=
  let e := constprop e0
  let t := topC e.state 0
  if t.subtypeOf .TInt then impl_vec O C (dispatchSimple O) true [.Nop] e
  else
    let e1 := (popC e).2
    let e2 := if !(t.couldBe .TObj) then nothrow e1 else e1
    match tv t with
    | some v => push e2 (from_cell (cellToInt v))
    | none => push e2 .TInt

/-- Move or copy the top of the stack into a local: when the value is known
to be equivalent to the local already (and the local cannot be a Ref),
return none without touching the state; otherwise pop, perform the set, and
return the moved type together with the equivalence id to record. -/
def moveToLocImpl (e0 : ISS) (loc1 : LocalId) : Option (Ty × LocalId) × ISS :=
  let e := nothrow e0
  let equivLoc0 := topStkLocal e.state 0
  let refLoc := locCouldBeRef e.state loc1
  if !refLoc && !(equivLoc0 == NoLocalId) &&
     (equivLoc0 == loc1 || locsAreEquiv e.state equivLoc0 loc1) &&
     (peekLocRaw e.state loc1 == topC e.state 0) then
    (none, e)
  else
    let equivLoc := if refLoc then equivLoc0
                    else if equivLoc0 == NoLocalId then loc1 else equivLoc0
    let p := popC e
    let e1 := { p.2 with state := setLoc p.2.state loc1 p.1 }
    let e2 := if !(equivLoc == loc1) && !(equivLoc == NoLocalId) then
                { e1 with state := addLocEquiv e1.state loc1 equivLoc }
              else e1
    (some (p.1, equivLoc), e2)

def in_SetL (O : Opts) (C : CollectInfo) (e : ISS) (loc : LocalId) : ISS :=
  match moveToLocImpl e loc with
  | (some p, e1) => pushEquiv e1 p.1 p.2
  | (none, e1) => impl_vec O C (dispatchSimple O) true [.Nop] e1

def in_PopL (O : Opts) (C : CollectInfo) (e : ISS) (loc : LocalId) : ISS :=
  match moveToLocImpl e loc with
  | (some _, e1) => e1
  | (none, e1) => impl_vec O C (dispatchSimple O) true [.PopC] e1

/-- Full single-instruction dispatch over the embedded instruction forms. -/
def dispatch (O : Opts) (C : CollectInfo) (e : ISS) (bc : Bytecode) : ISS :=
  match bc with
  | .CastInt => in_CastInt O C e
  | .SetL l => in_SetL O C e l
  | .PopL l => in_PopL O C e l
  | b => dispatchSimple O e b

/-- A basic block as the driver consumes it: instruction list, optional
static fallthrough successor, and the factored (exceptional) exits. -/
structure Block where
  hhbcs : List Bytecode
  fallthrough : Option BlockId
  factoredExits : List BlockId

def emptyState : State :=
  ⟨[], [], [], false⟩

/-- Copy of a state with the operand stack removed, as propagated across
factored exits. -/
def without_stacks (st : State) : State :=
  { st with stack := [] }

/-- Normalization applied by the driver's constant fixup: a scalar type is
replaced by the singleton of its extracted literal. -/
def scalarizeTy (t : Ty) : Ty :=
  match tv t with
  | some c => from_cell c
  | none => t

/-- The driver's check that every value an instruction pushed is a known
constant: some normalized state when the top numPush slots are all scalar,
none otherwise. -/
def fix_const_outputs (st : State) (n : Nat) : Option State :=
  let top := st.stack.take n
  if n ≤ st.stack.length && top.all (fun el => is_scalar el.type) then
    some { st with stack :=
            top.map (fun el => ⟨scalarizeTy el.type, el.equivLoc⟩) ++ st.stack.drop n }
  else none

/-- One driver step: snapshot the stack-less state when factored exits
exist, dispatch the instruction from fresh flags, apply the post-hoc
constant upgrade when enabled and the handler claimed const-prop and every
pushed value is constant, and finally propagate the snapshot to every
factored exit when the instruction may throw.  The embedded instruction
subset contains no conditional jumps, so the fused-group lookahead of the
source never fires here and the step is the single-instruction dispatch. -/
def interpOps (O : Opts) (C : CollectInfo) (blk : Block) (bc : Bytecode) (st : State) : ISS :=
  let stateBefore := if blk.factoredExits.isEmpty then emptyState else without_stacks st
  let numPushed := numPush bc
  let e := dispatch O C ⟨st, StepFlags.initial, []⟩ bc
  let e1 :=
    if O.ConstantProp && e.flags.canConstProp then
      match fix_const_outputs e.state numPushed with
      | some st2 =>
        { e with state := st2, flags := { e.flags with wasPEI := false, effectFree := true } }
      | none => e
    else e
  if e1.flags.wasPEI then
    { e1 with props := e1.props ++ blk.factoredExits.map (fun b => (b, stateBefore)) }
  else e1

structure RunFlags where
  returned : Option Ty
deriving DecidableEq

/-- Block interpretation loop: after each instruction, stop on a non
effect-free instruction when only effect-free blocks are of interest, on an
unreachable state, or on a taken branch; a reported return must come from
the last instruction of a block with no fallthrough, anything else being a
fatal assertion, modelled as the error outcome. -/
def runLoop (O : Opts) (blk : Block) :
    List Bytecode → State → CollectInfo → List (BlockId × State) →
    Except Unit (RunFlags × List (BlockId × State))
  | [], st, _, ps =>
    match blk.fallthrough with
    | some b => .ok (⟨none⟩, ps ++ [(b, st)])
    | none => .ok (⟨none⟩, ps)
  | b :: rest, st, C, ps =>
    let e := interpOps O C blk b st
    let ps2 := ps ++ e.props
    let C2 := if C.effectFree && !e.flags.effectFree then { C with effectFree := false } else C
    if C.effectFree && !e.flags.effectFree && C.effectFreeOnly then .ok (⟨none⟩, ps2)
    else if e.state.unreachable then .ok (⟨none⟩, ps2)
    else if e.flags.jmpDest.isSome && !(e.flags.jmpDest == blk.fallthrough) then
      .ok (⟨none⟩, ps2)
    else
      match e.flags.returned with
      | some t =>
        if rest.isEmpty && blk.fallthrough.isNone then .ok (⟨some t⟩, ps2)
        else .error ()
      | none => runLoop O blk rest e.state C2 ps2

/-- Interpret an entire block, starting at its first instruction. -/
def run (O : Opts) (C : CollectInfo) (blk : Block) (st : State) :
    Except Unit (RunFlags × List (BlockId × State)) :=
  runLoop O blk blk.hhbcs st C []

def popU (e : ISS) : ISS :=
  (popC e).2

/-- Push the resolved return type of a call: a bottom return type marks the
state unreachable (the callee never returns), and the type is then pushed,
or, under multi-value unpacking, placeholder cells are pushed positionally
(the embedded lattice carries no statically sized tuple types, so the
generic-placeholder arm of the source applies). -/
def pushCallReturnType (e0 : ISS) (ty : Ty) (unpack : Option Nat) : ISS :=
  let e := if ty == .TBottom then unreachable e0 else e0
  match unpack with
  | some k =>
    let e1 := (List.range (k - 1)).foldl (fun acc _ => popU acc) e
    (List.range k).foldl (fun acc _ => push acc .TInitCell) e1
  | none => push e ty

/-- Decision structure of the fused Same/NSame-plus-jump analysis: true when
the group bails to plain non-fused semantics.  The fused refinement itself
is beyond the embedded subset; the claims concern only when the bail
happens. -/
def sameJmpBails (nsame : Bool) (O : Opts) (st : State) : Bool :=
  if !((resolveSame nsame O st).1 == .TBool) then true
  else
    let loc0 := topStkEquiv st 0
    let loc1 := topStkEquiv st 1
    if loc0 == NoLocalId && loc1 == NoLocalId then true
    else
      let ty0 := topC st 0
      let ty1 := topC st 1
      let val0 := tv ty0
      let val1 := tv ty1
      if (val0.isSome && val1.isSome) ||
         (loc0 == NoLocalId && !val0.isSome && ty1.subtypeOf ty0) ||
         (loc1 == NoLocalId && !val1.isSome && ty0.subtypeOf ty1) then true
      else false

/-- Operand t could be a NaN-bearing floating value: it could be a double
and no known value rules NaN out.  This is the negation of the per-operand
disjuncts of the resolveSame guard. -/
def couldBeNanDbl (t : Ty) : Bool :=
  t.couldBe .TDbl &&
    (match tv t with
     | some c => !(notNanCell c)
     | none => true)

def O1 : Opts :=
  ⟨true, true, false, false⟩

def C0 : CollectInfo :=
  ⟨none, true, false⟩

def blk0 : Block :=
  ⟨[], none, []⟩

def iss0 : ISS :=
  ⟨emptyState, StepFlags.initial, []⟩

def stAdd2 : State :=
  ⟨[⟨.TInt, NoLocalId⟩, ⟨.TInt, NoLocalId⟩], [], [], false⟩

def stAddLit : State :=
  ⟨[⟨.TIVal 2, NoLocalId⟩, ⟨.TIVal 3, NoLocalId⟩], [], [], false⟩

def stPrint : State :=
  ⟨[⟨.TIVal 7, NoLocalId⟩], [], [], false⟩

def stC5 : State :=
  ⟨[⟨.TDbl, 0⟩, ⟨.TDVal (.num 2), 0⟩], [.TDbl], [], false⟩

def stC5w : State :=
  ⟨[⟨.TIVal 1, 0⟩, ⟨.TIVal 1, 0⟩], [.TIVal 1], [], false⟩

def stIntTop : State :=
  ⟨[⟨.TInt, NoLocalId⟩], [], [], false⟩

def stRet : State :=
  ⟨[⟨.TIVal 3, NoLocalId⟩], [], [], false⟩

def blkRet : Block :=
  ⟨[.RetC, .Nop], none, []⟩

def stC10 : State :=
  ⟨[⟨.TIVal 7, 1⟩], [.TGen, .TIVal 7], [], false⟩

/-- Combining two flag pairs that each satisfy the exclusion keeps it. -/
theorem flags_comb (a b c d : Bool) (h1 : (a && c) = false) (h2 : (b && d) = false) :
    ((a && b) && (c || d)) = false := by
  cases a <;> cases b <;> cases c <;> cases d <;> simp_all

/-- Every non-reducing handler keeps the exclusion of effect-free and
may-throw. -/
theorem dispatchSimple_flagsOk (O : Opts) (e : ISS) (bc : Bytecode)
    (h : (e.flags.effectFree && e.flags.wasPEI) = false) :
    ((dispatchSimple O e bc).flags.effectFree && (dispatchSimple O e bc).flags.wasPEI) = false := by
  obtain ⟨⟨stk, locs, eqc, unr⟩, fl, ps⟩ := e
  cases bc with
  | Nop => simp [dispatchSimple, in_Nop, effect_free]
  | PopC =>
    cases stk <;>
      simp only [dispatchSimple, in_PopC, nothrow, popC, could_run_destructor] <;>
      split <;> simp [effect_free]
  | Int n => simp [dispatchSimple, in_Int, effect_free, push, pushEquiv]
  | Double d => simp [dispatchSimple, in_Double, effect_free, push, pushEquiv]
  | String s => simp [dispatchSimple, in_String, effect_free, push, pushEquiv]
  | Print =>
    cases stk <;> simp only [dispatchSimple, in_Print, popC, push, pushEquiv] <;> simpa using h
  | Add =>
    cases stk with
    | nil => simpa [dispatchSimple, in_Add, arithImpl, constprop, popC, push, pushEquiv] using h
    | cons x rest =>
      cases rest <;>
        simpa [dispatchSimple, in_Add, arithImpl, constprop, popC, push, pushEquiv] using h
  | Same =>
    simp only [dispatchSimple, sameImpl, discard, nothrow, constprop, push, pushEquiv]
    split <;> simp_all
  | NSame =>
    simp only [dispatchSimple, sameImpl, discard, nothrow, constprop, push, pushEquiv]
    split <;> simp_all
  | Not =>
    cases stk <;>
      simp only [dispatchSimple, in_Not, castBoolImpl, nothrow, constprop, popC,
        push, pushEquiv] <;>
      split <;> simp
  | RetC =>
    cases stk <;> simp [dispatchSimple, in_RetC, doRet, effect_free, popC]
  | CastInt => simpa using h
  | SetL l => simpa using h
  | PopL l => simpa using h

theorem applyConstProp_flagsOk (e : ISS) (n : Nat)
    (h : (e.flags.effectFree && e.flags.wasPEI) = false) :
    ((applyConstProp e n).flags.effectFree && (applyConstProp e n).flags.wasPEI) = false := by
  unfold applyConstProp
  split
  · exact h
  · split
    · simp
    · exact h

theorem implVecStep_flagsOk (C : CollectInfo) (dd : ISS → Bytecode → ISS) (reduce : Bool)
    (b : Bytecode) (e : ISS) (cur : List Bytecode)
    (hdd : ∀ e1 b1, (e1.flags.effectFree && e1.flags.wasPEI) = false →
      ((dd e1 b1).flags.effectFree && (dd e1 b1).flags.wasPEI) = false)
    (h : (e.flags.effectFree && e.flags.wasPEI) = false) :
    ((implVecStep C dd reduce b e cur).1.flags.effectFree &&
     (implVecStep C dd reduce b e cur).1.flags.wasPEI) = false := by
  have h2 := hdd { e with flags := { e.flags with
                                       wasPEI := true, canConstProp := false,
                                       effectFree := false, strengthReduced := none } } b
    (by simp)
  unfold implVecStep
  dsimp only
  apply flags_comb _ _ _ _ _ h
  (repeat' split) <;> (try dsimp only) <;>
    solve
      | exact h2
      | simpa [unreachable] using h2
      | exact applyConstProp_flagsOk _ _ h2

theorem implVecLoop_flagsOk (C : CollectInfo) (dd : ISS → Bytecode → ISS) (reduce : Bool)
    (hdd : ∀ e1 b1, (e1.flags.effectFree && e1.flags.wasPEI) = false →
      ((dd e1 b1).flags.effectFree && (dd e1 b1).flags.wasPEI) = false) :
    ∀ (bcs : List Bytecode) (e : ISS) (cur : List Bytecode),
      (e.flags.effectFree && e.flags.wasPEI) = false →
      ((implVecLoop C dd reduce bcs e cur).1.flags.effectFree &&
       (implVecLoop C dd reduce bcs e cur).1.flags.wasPEI) = false := by
  intro bcs
  induction bcs with
  | nil => intro e cur h; simpa [implVecLoop] using h
  | cons b rest ih =>
    intro e cur h
    have hs := implVecStep_flagsOk C dd reduce b e cur hdd h
    rw [implVecLoop]
    (try dsimp only)
    split
    · exact hs
    · exact ih _ _ hs

theorem impl_vec_flagsOk (O : Opts) (C : CollectInfo) (dd : ISS → Bytecode → ISS)
    (reduce0 : Bool) (bcs : List Bytecode) (e0 : ISS)
    (hdd : ∀ e1 b1, (e1.flags.effectFree && e1.flags.wasPEI) = false →
      ((dd e1 b1).flags.effectFree && (dd e1 b1).flags.wasPEI) = false) :
    ((impl_vec O C dd reduce0 bcs e0).flags.effectFree &&
     (impl_vec O C dd reduce0 bcs e0).flags.wasPEI) = false := by
  have h := implVecLoop_flagsOk C dd (reduce0 && O.StrengthReduce) hdd bcs
    { e0 with flags := { e0.flags with
                           wasPEI := false, canConstProp := true, effectFree := true } }
    [] (by simp)
  simpa [impl_vec] using h

theorem moveToLocImpl_wasPEI (e : ISS) (loc : LocalId) :
    ((moveToLocImpl e loc).2).flags.wasPEI = false := by
  obtain ⟨⟨stk, locs, eqc, unr⟩, fl, ps⟩ := e
  cases stk <;>
    simp only [moveToLocImpl, nothrow, popC] <;>
    (repeat' split) <;> (try dsimp only) <;> simp_all [addLocEquiv, setLoc]

set_option maxHeartbeats 1600000 in
theorem dispatch_flagsOk (O : Opts) (C : CollectInfo) (e : ISS) (bc : Bytecode)
    (h : (e.flags.effectFree && e.flags.wasPEI) = false) :
    ((dispatch O C e bc).flags.effectFree && (dispatch O C e bc).flags.wasPEI) = false := by
  cases bc with
  | CastInt =>
    obtain ⟨⟨stk, locs, eqc, unr⟩, fl, ps⟩ := e
    simp only [dispatch, in_CastInt, constprop]
    split
    · exact impl_vec_flagsOk O C _ true [.Nop] _
        (fun e1 b1 h1 => dispatchSimple_flagsOk O e1 b1 h1)
    · cases stk <;> (repeat' split) <;> (try dsimp only) <;>
        simp_all [nothrow, popC, push, pushEquiv]
  | SetL l =>
    have hm := moveToLocImpl_wasPEI e l
    simp only [dispatch, in_SetL]
    split
    · rename_i p e1 heq
      rw [heq] at hm
      dsimp only at hm
      simp [pushEquiv, hm]
    · exact impl_vec_flagsOk O C _ true [.Nop] _
        (fun a b hb => dispatchSimple_flagsOk O a b hb)
  | PopL l =>
    have hm := moveToLocImpl_wasPEI e l
    simp only [dispatch, in_PopL]
    split
    · rename_i p e1 heq
      rw [heq] at hm
      dsimp only at hm
      simp [hm]
    · exact impl_vec_flagsOk O C _ true [.PopC] _
        (fun a b hb => dispatchSimple_flagsOk O a b hb)
  | Nop => simp only [dispatch]; exact dispatchSimple_flagsOk O e _ h
  | PopC => simp only [dispatch]; exact dispatchSimple_flagsOk O e _ h
  | Int n => simp only [dispatch]; exact dispatchSimple_flagsOk O e _ h
  | Double d => simp only [dispatch]; exact dispatchSimple_flagsOk O e _ h
  | String s => simp only [dispatch]; exact dispatchSimple_flagsOk O e _ h
  | Print => simp only [dispatch]; exact dispatchSimple_flagsOk O e _ h
  | Add => simp only [dispatch]; exact dispatchSimple_flagsOk O e _ h
  | Same => simp only [dispatch]; exact dispatchSimple_flagsOk O e _ h
  | NSame => simp only [dispatch]; exact dispatchSimple_flagsOk O e _ h
  | Not => simp only [dispatch]; exact dispatchSimple_flagsOk O e _ h
  | RetC => simp only [dispatch]; exact dispatchSimple_flagsOk O e _ h

theorem interpOps_flags_exclusion (O : Opts) (C : CollectInfo) (blk : Block)
    (bc : Bytecode) (st : State) :
    ((interpOps O C blk bc st).flags.effectFree &&
     (interpOps O C blk bc st).flags.wasPEI) = false := by
  have h := dispatch_flagsOk O C ⟨st, StepFlags.initial, []⟩ bc (by simp [StepFlags.initial])
  unfold interpOps
  (try dsimp only)
  (repeat' split) <;> (try dsimp only) <;> simp_all

theorem dispatchSimple_props (O : Opts) (e : ISS) (bc : Bytecode) :
    (dispatchSimple O e bc).props = e.props := by
  obtain ⟨⟨stk, locs, eqc, unr⟩, fl, ps⟩ := e
  cases bc with
  | Nop => rfl
  | PopC =>
    cases stk <;> simp only [dispatchSimple, in_PopC, nothrow, popC] <;> split <;> rfl
  | Int n => rfl
  | Double d => rfl
  | String s => rfl
  | Print => cases stk <;> rfl
  | Add =>
    cases stk with
    | nil => rfl
    | cons x rest => cases rest <;> rfl
  | Same =>
    simp only [dispatchSimple, sameImpl]
    (try dsimp only)
    split <;> rfl
  | NSame =>
    simp only [dispatchSimple, sameImpl]
    (try dsimp only)
    split <;> rfl
  | Not =>
    cases stk <;> simp only [dispatchSimple, in_Not, castBoolImpl, popC] <;>
      (repeat' split) <;> rfl
  | RetC => cases stk <;> rfl
  | CastInt => rfl
  | SetL l => rfl
  | PopL l => rfl

theorem applyConstProp_props (e : ISS) (n : Nat) :
    (applyConstProp e n).props = e.props := by
  unfold applyConstProp
  (repeat' split) <;> rfl

theorem implVecStep_props (C : CollectInfo) (dd : ISS → Bytecode → ISS) (reduce : Bool)
    (b : Bytecode) (e : ISS) (cur : List Bytecode)
    (hdd : ∀ e1 b1, (dd e1 b1).props = e1.props) :
    (implVecStep C dd reduce b e cur).1.props = e.props := by
  have h2 := hdd { e with flags := { e.flags with
                                       wasPEI := true, canConstProp := false,
                                       effectFree := false, strengthReduced := none } } b
  unfold implVecStep
  (try dsimp only)
  (repeat' split) <;> (try dsimp only) <;>
    solve
      | exact h2
      | simpa [unreachable] using h2
      | (rw [applyConstProp_props]; simpa [unreachable] using h2)

theorem implVecLoop_props (C : CollectInfo) (dd : ISS → Bytecode → ISS) (reduce : Bool)
    (hdd : ∀ e1 b1, (dd e1 b1).props = e1.props) :
    ∀ (bcs : List Bytecode) (e : ISS) (cur : List Bytecode),
      (implVecLoop C dd reduce bcs e cur).1.props = e.props := by
  intro bcs
  induction bcs with
  | nil => intro e cur; rfl
  | cons b rest ih =>
    intro e cur
    have hs := implVecStep_props C dd reduce b e cur hdd
    rw [implVecLoop]
    (try dsimp only)
    split
    · exact hs
    · rw [ih _ _, hs]

theorem impl_vec_props (O : Opts) (C : CollectInfo) (dd : ISS → Bytecode → ISS)
    (reduce0 : Bool) (bcs : List Bytecode) (e0 : ISS)
    (hdd : ∀ e1 b1, (dd e1 b1).props = e1.props) :
    (impl_vec O C dd reduce0 bcs e0).props = e0.props := by
  have h := implVecLoop_props C dd (reduce0 && O.StrengthReduce) hdd bcs
    { e0 with flags := { e0.flags with
                           wasPEI := false, canConstProp := true, effectFree := true } }
    []
  simpa [impl_vec] using h

theorem moveToLocImpl_props (e : ISS) (loc : LocalId) :
    ((moveToLocImpl e loc).2).props = e.props := by
  obtain ⟨⟨stk, locs, eqc, unr⟩, fl, ps⟩ := e
  cases stk <;>
    simp only [moveToLocImpl, nothrow, popC] <;>
    (repeat' split) <;> (try dsimp only) <;> simp_all [addLocEquiv, setLoc]

set_option maxHeartbeats 1600000 in
theorem dispatch_props (O : Opts) (C : CollectInfo) (e : ISS) (bc : Bytecode) :
    (dispatch O C e bc).props = e.props := by
  cases bc with
  | CastInt =>
    obtain ⟨⟨stk, locs, eqc, unr⟩, fl, ps⟩ := e
    simp only [dispatch, in_CastInt, constprop]
    split
    · exact impl_vec_props O C _ true [.Nop] _ (fun a b => dispatchSimple_props O a b)
    · cases stk <;> (repeat' split) <;> (try dsimp only) <;>
        simp_all [nothrow, popC, push, pushEquiv]
  | SetL l =>
    have hm := moveToLocImpl_props e l
    simp only [dispatch, in_SetL]
    split
    · rename_i p e1 heq
      rw [heq] at hm
      dsimp only at hm
      simp [pushEquiv, hm]
    · rename_i e1 heq
      rw [heq] at hm
      dsimp only at hm
      rw [impl_vec_props O C _ true [.Nop] _ (fun a b => dispatchSimple_props O a b), hm]
  | PopL l =>
    have hm := moveToLocImpl_props e l
    simp only [dispatch, in_PopL]
    split
    · rename_i p e1 heq
      rw [heq] at hm
      dsimp only at hm
      simpa using hm
    · rename_i e1 heq
      rw [heq] at hm
      dsimp only at hm
      rw [impl_vec_props O C _ true [.PopC] _ (fun a b => dispatchSimple_props O a b), hm]
  | Nop => simp only [dispatch]; exact dispatchSimple_props O e _
  | PopC => simp only [dispatch]; exact dispatchSimple_props O e _
  | Int n => simp only [dispatch]; exact dispatchSimple_props O e _
  | Double d => simp only [dispatch]; exact dispatchSimple_props O e _
  | String s => simp only [dispatch]; exact dispatchSimple_props O e _
  | Print => simp only [dispatch]; exact dispatchSimple_props O e _
  | Add => simp only [dispatch]; exact dispatchSimple_props O e _
  | Same => simp only [dispatch]; exact dispatchSimple_props O e _
  | NSame => simp only [dispatch]; exact dispatchSimple_props O e _
  | Not => simp only [dispatch]; exact dispatchSimple_props O e _
  | RetC => simp only [dispatch]; exact dispatchSimple_props O e _

/-- The propagate calls an interpOps step makes are exactly one stack-less
copy of the pre-instruction state to each factored exit when the computed
flags say the instruction may throw, and none at all otherwise. -/
theorem interpOps_props_eq (O : Opts) (C : CollectInfo) (blk : Block)
    (bc : Bytecode) (st : State) :
    (interpOps O C blk bc st).props =
      (if (interpOps O C blk bc st).flags.wasPEI = true then
        blk.factoredExits.map (fun b => (b, without_stacks st))
      else []) := by
  have hd := dispatch_props O C ⟨st, StepFlags.initial, []⟩ bc
  unfold interpOps
  (try dsimp only)
  cases hfe : blk.factoredExits with
  | nil => (repeat' split) <;> (try dsimp only) <;> simp_all
  | cons b1 bs => (repeat' split) <;> (try dsimp only) <;> simp_all

/-- C1: for every embedded instruction interpreted by interpOps and every
abstract state (hence in particular every reachable one), the computed
effect flags satisfy the invariant that effectFree implies not wasPEI: no
flag result ever has effectFree together with wasPEI. -/
theorem c1_interpOps_effectFree_excludes_wasPEI (O : Opts) (C : CollectInfo)
    (blk : Block) (bc : Bytecode) (st : State) :
    ((interpOps O C blk bc st).flags.effectFree &&
     (interpOps O C blk bc st).flags.wasPEI) = false :=
  interpOps_flags_exclusion O C blk bc st

/-- C4: for every embedded instruction and state, interpOps propagates the
stack-less copy of the pre-instruction state to every factored exit, exactly
once each, when the computed flags have wasPEI, and performs no propagation
at all when wasPEI is false. -/
theorem c4_interpOps_factored_propagation (O : Opts) (C : CollectInfo)
    (blk : Block) (bc : Bytecode) (st : State) :
    (interpOps O C blk bc st).props =
      (if (interpOps O C blk bc st).flags.wasPEI = true then
        blk.factoredExits.map (fun b => (b, without_stacks st))
      else []) :=
  interpOps_props_eq O C blk bc st

/-- C2, counterexample: on two non-literal integer operands, Add pushes the
lattice result TInt, yet the computed flags still claim const-prop
eligibility (the handler sets canConstProp unconditionally), contradicting
the claim that const-prop is not claimed when the operands are not both
literals. -/
theorem c2_counterexample :
    (interpOps O1 C0 blk0 .Add stAdd2).flags.canConstProp = true ∧
    topC (interpOps O1 C0 blk0 .Add stAdd2).state 0 = .TInt ∧
    tv .TInt = none := by
  decide

/-- C2, amended: with constant propagation enabled, interpreting Add on two
pushed literal integers yields the pushed singleton sum with const-prop
claimed and the no-throw and effect-free upgrade applied; when the operands
are not both literals, the abstract lattice result is pushed and the
no-throw upgrade does not happen, but the handler still sets canConstProp
(eligibility is resolved later against the pushed outputs). -/
theorem c2_add_amended (O : Opts) (C : CollectInfo) (blk : Block)
    (t1 t2 : Ty) (l1 l2 : LocalId) (rest : List StkElem)
    (locs : List Ty) (eqc : List (List LocalId)) (unr : Bool)
    (hO : O.ConstantProp = true) :
    (∀ n1 n2 : Int, t1 = .TIVal n1 → t2 = .TIVal n2 →
      (interpOps O C blk .Add ⟨⟨t1, l1⟩ :: ⟨t2, l2⟩ :: rest, locs, eqc, unr⟩).state.stack
          = ⟨.TIVal (n2 + n1), NoLocalId⟩ :: rest ∧
      (interpOps O C blk .Add ⟨⟨t1, l1⟩ :: ⟨t2, l2⟩ :: rest, locs, eqc, unr⟩).flags.canConstProp
          = true ∧
      (interpOps O C blk .Add ⟨⟨t1, l1⟩ :: ⟨t2, l2⟩ :: rest, locs, eqc, unr⟩).flags.wasPEI
          = false ∧
      (interpOps O C blk .Add ⟨⟨t1, l1⟩ :: ⟨t2, l2⟩ :: rest, locs, eqc, unr⟩).flags.effectFree
          = true) ∧
    ((tv t1).isSome = false ∨ (tv t2).isSome = false →
      (interpOps O C blk .Add ⟨⟨t1, l1⟩ :: ⟨t2, l2⟩ :: rest, locs, eqc, unr⟩).state.stack
          = ⟨typeAddAbstract t2 t1, NoLocalId⟩ :: rest ∧
      (interpOps O C blk .Add ⟨⟨t1, l1⟩ :: ⟨t2, l2⟩ :: rest, locs, eqc, unr⟩).flags.canConstProp
          = true ∧
      (interpOps O C blk .Add ⟨⟨t1, l1⟩ :: ⟨t2, l2⟩ :: rest, locs, eqc, unr⟩).flags.wasPEI
          = true ∧
      (interpOps O C blk .Add ⟨⟨t1, l1⟩ :: ⟨t2, l2⟩ :: rest, locs, eqc, unr⟩).flags.effectFree
          = false) := by
  constructor
  · intro n1 n2 h1 h2
    subst h1
    subst h2
    simp [interpOps, dispatch, dispatchSimple, in_Add, arithImpl, constprop, popC, push,
      pushEquiv, typeAdd, tv, cellAdd, from_cell, fix_const_outputs, is_scalar, scalarizeTy,
      StepFlags.initial, hO, numPush, Nat.le_add_left]
  · intro hnl
    have habs : typeAdd t2 t1 = typeAddAbstract t2 t1 := by
      unfold typeAdd
      cases htv2 : tv t2 <;> cases htv1 : tv t1 <;> simp_all
    have hout : tv (typeAddAbstract t2 t1) = none := by
      unfold typeAddAbstract
      (repeat' split) <;> rfl
    simp [interpOps, dispatch, dispatchSimple, in_Add, arithImpl, constprop, popC, push,
      pushEquiv, habs, fix_const_outputs, is_scalar, hout, StepFlags.initial, hO, numPush,
      Nat.le_add_left]

/-- C2, witness for the amended theorem at literal operands 3 and 2. -/
theorem c2_add_amended_witness :
    (interpOps O1 C0 blk0 .Add stAddLit).state.stack = [⟨.TIVal 5, NoLocalId⟩] ∧
    (interpOps O1 C0 blk0 .Add stAddLit).flags.wasPEI = false := by
  have h := (c2_add_amended O1 C0 blk0 (.TIVal 2) (.TIVal 3) NoLocalId NoLocalId
    [] [] [] false (by decide)).1 2 3 rfl rfl
  exact ⟨h.1, h.2.2.1⟩

/-- C3, counterexample: Print pushes the literal 1 and constant propagation
is globally enabled, yet the flags are not upgraded to no-throw and
effect-free, because the upgrade additionally requires the handler to have
reported canConstProp, which Print does not; so literal outputs plus the
global option do not suffice. -/
theorem c3_counterexample :
    topC (interpOps O1 C0 blk0 .Print stPrint).state 0 = .TIVal 1 ∧
    is_scalar (topC (interpOps O1 C0 blk0 .Print stPrint).state 0) = true ∧
    O1.ConstantProp = true ∧
    (interpOps O1 C0 blk0 .Print stPrint).flags.wasPEI = true ∧
    (interpOps O1 C0 blk0 .Print stPrint).flags.effectFree = false := by
  decide

/-- C3, amended: after a handler runs, when global constant propagation is
enabled, the handler reported canConstProp, and every value the instruction
pushed is a known constant, the flags are force-upgraded to no-throw and
effect-free, even when the handler reported that the instruction could
throw. -/
theorem c3_const_upgrade_amended (O : Opts) (C : CollectInfo) (blk : Block)
    (bc : Bytecode) (st : State)
    (hO : O.ConstantProp = true)
    (hcc : (dispatch O C ⟨st, StepFlags.initial, []⟩ bc).flags.canConstProp = true)
    (hfix : (fix_const_outputs (dispatch O C ⟨st, StepFlags.initial, []⟩ bc).state
              (numPush bc)).isSome = true) :
    (interpOps O C blk bc st).flags.wasPEI = false ∧
    (interpOps O C blk bc st).flags.effectFree = true := by
  obtain ⟨st2, heq⟩ := Option.isSome_iff_exists.mp hfix
  unfold interpOps
  (try dsimp only)
  rw [hO, hcc, heq]
  simp

/-- C3, witness for the amended theorem: an Add of two literals is upgraded
to no-throw and effect-free. -/
theorem c3_const_upgrade_amended_witness :
    (interpOps O1 C0 blk0 .Add stAddLit).flags.wasPEI = false ∧
    (interpOps O1 C0 blk0 .Add stAddLit).flags.effectFree = true :=
  c3_const_upgrade_amended O1 C0 blk0 .Add stAddLit (by decide) (by decide) (by decide)

/-- The four-disjunct NaN guard of resolveSame decides exactly when not both
operands could be NaN-bearing doubles. -/
theorem nan_guard_eq (t1 t2 : Ty) :
    (!(t1.couldBe .TDbl) || !(t2.couldBe .TDbl) ||
     (match tv t1 with | some c => notNanCell c | none => false) ||
     (match tv t2 with | some c => notNanCell c | none => false))
    = !(couldBeNanDbl t1 && couldBeNanDbl t2) := by
  unfold couldBeNanDbl
  cases htv1 : tv t1 <;> cases htv2 : tv t2 <;> (try dsimp only) <;>
    cases h1 : t1.couldBe .TDbl <;> cases h2 : t2.couldBe .TDbl <;>
    simp_all [Bool.not_and]

/-- When the operands are linked and not both could be NaN-bearing doubles,
resolveSame decides the comparison statically. -/
theorem resolveSame_decided (nsame : Bool) (O : Opts) (st : State)
    (hlink : linkedOperands st = true)
    (hb : (couldBeNanDbl (topC st 0) && couldBeNanDbl (topC st 1)) = false) :
    (resolveSame nsame O st).1 = (if nsame then Ty.TFalse else Ty.TTrue) := by
  unfold resolveSame
  unfold couldBeNanDbl at hb
  (try dsimp only)
  rw [hlink]
  cases htv1 : tv (topC st 0) <;> cases htv2 : tv (topC st 1) <;>
    cases hc1 : (topC st 0).couldBe .TDbl <;> cases hc2 : (topC st 1).couldBe .TDbl <;>
    simp_all

/-- When both operands are possibly-NaN doubles with no known value,
resolveSame falls back to the lattice comparator. -/
theorem resolveSame_lattice (nsame : Bool) (O : Opts) (st : State)
    (hc1 : (topC st 0).couldBe .TDbl = true) (hc2 : (topC st 1).couldBe .TDbl = true)
    (htv1 : tv (topC st 0) = none) (htv2 : tv (topC st 1) = none) :
    (resolveSame nsame O st).1
      = (if nsame then typeNSame (topC st 0) (topC st 1)
         else typeSame (topC st 0) (topC st 1)) := by
  unfold resolveSame
  (try dsimp only)
  simp [htv1, htv2, hc1, hc2]

/-- C5, counterexample: the two stack operands are linked to the same local,
the top operand is an unknown double (so it could be a NaN-bearing floating
value), yet resolveSame statically decides literal true for Same instead of
using the lattice comparator, which here is undecided: the static decision
is suppressed only when both operands could be NaN-bearing, not when either
could. -/
theorem c5_counterexample :
    linkedOperands stC5 = true ∧
    couldBeNanDbl (topC stC5 0) = true ∧
    (resolveSame false O1 stC5).1 = .TTrue ∧
    typeSame (topC stC5 0) (topC stC5 1) = .TBool := by
  decide

/-- C5, amended: for linked operands, Same resolves to literal true (NSame
to false) whenever not both operands could be NaN-bearing floating values;
when both are possibly-NaN unknown values the lattice comparator is used;
and whenever no compatibility warning is possible, sameImpl reports
const-prop eligibility and no-throw and pushes the resolved result. -/
theorem c5_same_equiv_amended (O : Opts) (nsame : Bool)
    (t1 t2 : Ty) (l1 l2 : LocalId) (rest : List StkElem)
    (locs : List Ty) (eqc : List (List LocalId)) (unr : Bool)
    (hlink : linkedOperands ⟨⟨t1, l1⟩ :: ⟨t2, l2⟩ :: rest, locs, eqc, unr⟩ = true) :
    (¬(couldBeNanDbl t1 = true ∧ couldBeNanDbl t2 = true) →
      (resolveSame nsame O ⟨⟨t1, l1⟩ :: ⟨t2, l2⟩ :: rest, locs, eqc, unr⟩).1
        = (if nsame then Ty.TFalse else Ty.TTrue)) ∧
    (couldBeNanDbl t1 = true → couldBeNanDbl t2 = true → tv t1 = none → tv t2 = none →
      (resolveSame nsame O ⟨⟨t1, l1⟩ :: ⟨t2, l2⟩ :: rest, locs, eqc, unr⟩).1
        = (if nsame then typeNSame t1 t2 else typeSame t1 t2)) ∧
    ((resolveSame nsame O ⟨⟨t1, l1⟩ :: ⟨t2, l2⟩ :: rest, locs, eqc, unr⟩).2 = false →
      (sameImpl nsame O ⟨⟨⟨t1, l1⟩ :: ⟨t2, l2⟩ :: rest, locs, eqc, unr⟩,
          StepFlags.initial, []⟩).flags.canConstProp = true ∧
      (sameImpl nsame O ⟨⟨⟨t1, l1⟩ :: ⟨t2, l2⟩ :: rest, locs, eqc, unr⟩,
          StepFlags.initial, []⟩).flags.wasPEI = false ∧
      (sameImpl nsame O ⟨⟨⟨t1, l1⟩ :: ⟨t2, l2⟩ :: rest, locs, eqc, unr⟩,
          StepFlags.initial, []⟩).state.stack
        = ⟨(resolveSame nsame O ⟨⟨t1, l1⟩ :: ⟨t2, l2⟩ :: rest, locs, eqc, unr⟩).1,
            NoLocalId⟩ :: rest) := by
  have e0 : topC ⟨⟨t1, l1⟩ :: ⟨t2, l2⟩ :: rest, locs, eqc, unr⟩ 0 = t1 := rfl
  have e1 : topC ⟨⟨t1, l1⟩ :: ⟨t2, l2⟩ :: rest, locs, eqc, unr⟩ 1 = t2 := rfl
  refine ⟨?_, ?_, ?_⟩
  · intro hnan
    have hb : (couldBeNanDbl (topC ⟨⟨t1, l1⟩ :: ⟨t2, l2⟩ :: rest, locs, eqc, unr⟩ 0) &&
        couldBeNanDbl (topC ⟨⟨t1, l1⟩ :: ⟨t2, l2⟩ :: rest, locs, eqc, unr⟩ 1)) = false := by
      rw [e0, e1]
      cases hx : couldBeNanDbl t1 <;> cases hy : couldBeNanDbl t2 <;> simp_all
    exact resolveSame_decided nsame O _ hlink hb
  · intro h1 h2 htv1 htv2
    have hc1 : t1.couldBe .TDbl = true := by
      unfold couldBeNanDbl at h1
      cases hx : t1.couldBe .TDbl <;> simp_all
    have hc2 : t2.couldBe .TDbl = true := by
      unfold couldBeNanDbl at h2
      cases hx : t2.couldBe .TDbl <;> simp_all
    have h := resolveSame_lattice nsame O ⟨⟨t1, l1⟩ :: ⟨t2, l2⟩ :: rest, locs, eqc, unr⟩
      (by rw [e0]; exact hc1) (by rw [e1]; exact hc2)
      (by rw [e0]; exact htv1) (by rw [e1]; exact htv2)
    rw [e0, e1] at h
    exact h
  · intro hwarn
    unfold sameImpl
    (try dsimp only)
    rw [hwarn]
    simp [discard, nothrow, constprop, push, pushEquiv, StepFlags.initial, List.drop]

/-- C5, witness for the amended theorem: two int-literal slots linked to the
same local resolve to literal true, with const-prop reported by sameImpl. -/
theorem c5_same_equiv_amended_witness :
    (resolveSame false O1 stC5w).1 = .TTrue ∧
    (sameImpl false O1 ⟨stC5w, StepFlags.initial, []⟩).flags.canConstProp = true := by
  have h := c5_same_equiv_amended O1 false (.TIVal 1) (.TIVal 1) 0 0 []
    [.TIVal 1] [] false (by decide)
  exact ⟨h.1 (by decide), (h.2.2 (by decide)).1⟩

/-- C6, counterexample: a bottom return type marks the state unreachable but
a value is still pushed onto the stack, so the post-call state does not
leave the stack untouched as the claim's "instead of pushing" requires. -/
theorem c6_counterexample :
    (pushCallReturnType iss0 .TBottom none).state.unreachable = true ∧
    (pushCallReturnType iss0 .TBottom none).state.stack = [⟨.TBottom, NoLocalId⟩] := by
  decide

/-- C6, amended: the post-call state is marked unreachable exactly when the
resolved return type is bottom (or it already was unreachable), and the
return type is pushed onto the stack in every case, keeping the declared
push arity. -/
theorem c6_push_call_return_bottom (e : ISS) (ty : Ty) :
    (pushCallReturnType e ty none).state.unreachable
        = (ty == .TBottom || e.state.unreachable) ∧
    (pushCallReturnType e ty none).state.stack = ⟨ty, NoLocalId⟩ :: e.state.stack := by
  unfold pushCallReturnType
  (try dsimp only)
  split <;> simp_all [unreachable, push, pushEquiv]

/-- C7, counterexample: with the stack top a subtype of Int, the reduced
CastInt carries no-throw and effect-free but NOT const-prop eligibility: the
canConstProp bit of the replacement Nop is false and the combined flags
drop the handler's initial constprop claim. -/
theorem c7_counterexample :
    (topC stIntTop 0).subtypeOf .TInt = true ∧
    (dispatch O1 C0 ⟨stIntTop, StepFlags.initial, []⟩ .CastInt).flags.wasPEI = false ∧
    (dispatch O1 C0 ⟨stIntTop, StepFlags.initial, []⟩ .CastInt).flags.effectFree = true ∧
    (dispatch O1 C0 ⟨stIntTop, StepFlags.initial, []⟩ .CastInt).flags.canConstProp = false := by
  decide

/-- C7, amended: when the stack top is a subtype of Int and strength
reduction is enabled, CastInt is replaced by a Nop leaving the whole state
unchanged, with flags no-throw and effect-free but canConstProp false; and
re-running the interpreter on the replacement Nop changes nothing further
and requests no further reduction (idempotence). -/
theorem c7_castInt_noop_idempotent (O : Opts) (C : CollectInfo) (st : State)
    (hSR : O.StrengthReduce = true)
    (hsub : (topC st 0).subtypeOf .TInt = true) :
    (dispatch O C ⟨st, StepFlags.initial, []⟩ .CastInt).state = st ∧
    (dispatch O C ⟨st, StepFlags.initial, []⟩ .CastInt).flags.strengthReduced
        = some [.Nop] ∧
    (dispatch O C ⟨st, StepFlags.initial, []⟩ .CastInt).flags.wasPEI = false ∧
    (dispatch O C ⟨st, StepFlags.initial, []⟩ .CastInt).flags.effectFree = true ∧
    (dispatch O C ⟨st, StepFlags.initial, []⟩ .CastInt).flags.canConstProp = false ∧
    (dispatch O C ⟨(dispatch O C ⟨st, StepFlags.initial, []⟩ .CastInt).state,
        StepFlags.initial, []⟩ .Nop).state = st ∧
    (dispatch O C ⟨(dispatch O C ⟨st, StepFlags.initial, []⟩ .CastInt).state,
        StepFlags.initial, []⟩ .Nop).flags.strengthReduced = none := by
  obtain ⟨stk, locs, eqc, unr⟩ := st
  cases unr <;>
    simp [dispatch, in_CastInt, constprop, hsub, hSR, impl_vec, implVecLoop, implVecStep,
      dispatchSimple, in_Nop, effect_free, instrIsTF, StepFlags.initial, unreachable]

/-- C7, witness for the amended theorem at a concrete int-typed stack. -/
theorem c7_castInt_noop_idempotent_witness :
    (dispatch O1 C0 ⟨stIntTop, StepFlags.initial, []⟩ .CastInt).state = stIntTop ∧
    (dispatch O1 C0 ⟨stIntTop, StepFlags.initial, []⟩ .CastInt).flags.strengthReduced
        = some [.Nop] := by
  have h := c7_castInt_noop_idempotent O1 C0 stIntTop (by decide) (by decide)
  exact ⟨h.1, h.2.1⟩

/-- C8: whenever the loop of run reaches an instruction whose flags carry a
returned type (the state still reachable, no branch taken, no effect-free
bail), and either more instructions follow or the block has a fallthrough
successor, run aborts with the fatal-assertion outcome instead of
tolerating the return. -/
theorem c8_run_returned_must_be_terminal (O : Opts) (C : CollectInfo) (blk : Block)
    (bc : Bytecode) (rest : List Bytecode) (st : State) (t : Ty)
    (hblk : blk.hhbcs = bc :: rest)
    (hret : (interpOps O C blk bc st).flags.returned = some t)
    (hbail : (C.effectFree && !(interpOps O C blk bc st).flags.effectFree &&
              C.effectFreeOnly) = false)
    (hunreach : (interpOps O C blk bc st).state.unreachable = false)
    (hjmp : ((interpOps O C blk bc st).flags.jmpDest.isSome &&
             !((interpOps O C blk bc st).flags.jmpDest == blk.fallthrough)) = false)
    (hpos : rest ≠ [] ∨ blk.fallthrough ≠ none) :
    run O C blk st = .error () := by
  have hcond : (rest.isEmpty && blk.fallthrough.isNone) = false := by
    rcases hpos with h | h
    · cases rest <;> simp_all
    · cases hft : blk.fallthrough <;> simp_all
  unfold run
  rw [hblk]
  simp only [runLoop]
  (try dsimp only)
  simp only [hret, hbail, hunreach, hjmp, hcond]
  simp

/-- C8, witness: a block whose return instruction is followed by another
instruction makes run abort. -/
theorem c8_run_returned_must_be_terminal_witness :
    run O1 C0 blkRet stRet = .error () :=
  c8_run_returned_must_be_terminal O1 C0 blkRet .RetC [.Nop] stRet (.TIVal 3)
    rfl (by decide) (by decide) (by decide) (by decide) (Or.inl (by decide))

/-- C9: the fused Same/NSame-plus-jump analysis bails to plain semantics
when neither operand has a known equivalence id, when both operands have
known constant values, and when one side has no equivalence id and no
constant value while the other operand's type is a subtype of its type. -/
theorem c9_sameJmp_bail_conditions (nsame : Bool) (O : Opts) (st : State) :
    ((topStkEquiv st 0 = NoLocalId ∧ topStkEquiv st 1 = NoLocalId) →
        sameJmpBails nsame O st = true) ∧
    (((tv (topC st 0)).isSome = true ∧ (tv (topC st 1)).isSome = true) →
        sameJmpBails nsame O st = true) ∧
    ((topStkEquiv st 0 = NoLocalId ∧ tv (topC st 0) = none ∧
        (topC st 1).subtypeOf (topC st 0) = true) →
        sameJmpBails nsame O st = true) ∧
    ((topStkEquiv st 1 = NoLocalId ∧ tv (topC st 1) = none ∧
        (topC st 0).subtypeOf (topC st 1) = true) →
        sameJmpBails nsame O st = true) := by
  refine ⟨?_, ?_, ?_, ?_⟩ <;> intro h <;> unfold sameJmpBails <;> (try dsimp only) <;>
    (repeat' split) <;> simp_all

/-- C9, witness: with no equivalence id on either operand the group bails. -/
theorem c9_sameJmp_bail_conditions_witness :
    sameJmpBails false O1 stAdd2 = true :=
  (c9_sameJmp_bail_conditions false O1 stAdd2).1 (by decide)

/-- C10 (code bug): on a SetL whose destination local could be a Ref, the
store elision indeed never fires and the assignment is performed, but a
stack-to-local equivalence IS recorded when the top of the stack carries an
equivalence id: here local 0 could be a Ref (its raw type is the generic
one), the top of the stack is linked to local 1, and after SetL 0 the
interpreter has recorded locals 0 and 1 as equivalent and pushed the value
still tagged with local 1, contradicting the claim and the comment in
moveToLocImpl that no equality should be recorded in the Ref case. -/
theorem c10_setL_ref_records_equiv :
    locCouldBeRef stC10 0 = true ∧
    topStkLocal stC10 0 = 1 ∧
    (dispatch O1 C0 ⟨stC10, StepFlags.initial, []⟩ (.SetL 0)).state.stack
        = [⟨.TIVal 7, 1⟩] ∧
    locsAreEquiv (dispatch O1 C0 ⟨stC10, StepFlags.initial, []⟩ (.SetL 0)).state 0 1
        = true := by
  decide

end HHBBC
